import Mathlib

/-!
# graphqlgo: the racing GraphQL client of `client.go`

A shallow embedding of `client.go`.  The Go code performs I/O and starts
goroutines; here every effect is explicit:

* the HTTP transport, `json.Marshal` and `ioutil.ReadAll` are library code.
  The transport is an oracle (`HttpClient.answer`) that says how the call made
  by goroutine `gid` is answered; `json.Marshal` on a non-nil value is a
  parameter; `ReadAll` returns the bytes delivered before the stream ends or
  fails;
* a `World` value is threaded through the code and records what a test spy
  would see: the `PostForm` calls, the bodies handed out, the bodies closed and
  the arguments the `ResultParser` was called with;
* a requester makes one blocking call, so it has two halves: `issue`, what it
  does up to the point where it waits for the transport (the call goes out),
  and `complete`, what it does from the moment the transport answers;
* `first` starts its goroutines in the loop `go firstHelper(index)`: each runs
  the `issue` half of its requester at once.  What follows is run by an
  explicit schedule, a list of `SchedEvent`s.  `finish i` lets the call of
  goroutine `i` return, so that the goroutine runs the `complete` half and
  executes its channel send; `recv` lets the caller execute `<-c`.  The
  channel follows the Go runtime: senders are served in arrival order, a send
  on a full (or unbuffered) channel with no waiting receiver parks the sender.
  The schedule covers the whole life of the goroutines, also after the caller
  has returned.

`log.Printf` and the `time` measurements are advisory and are left out.
-/

namespace Graphqlgo

/-! ## Data model -/

/-- Raw bytes, the Go type `[]byte`; each element stands for one byte. -/
abbrev Bytes := List Nat

/-- Go `error` values.  The only error `client.go` builds itself is
`http.ProtocolError`; every other error comes from a collaborator. -/
inductive GoError where
  | ProtocolError (ErrorString : String)
  | other (msg : String)
  deriving DecidableEq, Repr

/-- Form values, the Go type `map[string][]string` (`url.Values`), as an
association list. -/
abbrev Values := List (String × List String)

/-- One observed `PostForm` call: the calling goroutine, the URL, the form. -/
structure PostCall where
  gid : Nat
  url : String
  values : Values
  deriving DecidableEq, Repr

/-- What the spies have seen so far. -/
structure World where
  /-- The `PostForm` calls made, in order. -/
  posts : List PostCall
  /-- Handles of the response bodies the transport has handed out. -/
  opened : List Nat
  /-- Handles of the response bodies on which `Close` was called. -/
  closed : List Nat
  /-- Arguments of the `ResultParser` invocations, in order. -/
  parserCalls : List Bytes
  deriving DecidableEq, Repr

/-- A world in which nothing has happened yet. -/
def World.empty : World := ⟨[], [], [], []⟩

/-- A response body, the Go type `io.ReadCloser`.  The field `content` is the
complete body; `readError = some (k, e)` means that reading the stream fails
with `e` after `k` bytes have been delivered. -/
structure ReadCloser where
  handle : Nat
  content : Bytes
  readError : Option (Nat × GoError)
  deriving DecidableEq, Repr

/-- The part of `*http.Response` that `client.go` uses. -/
structure Response where
  StatusCode : Int
  Body : ReadCloser
  deriving DecidableEq, Repr

/-- The constant `http.StatusOK`. -/
def StatusOK : Int := 200

/-- How the server answers one call: status code, complete body, and whether
reading the body fails part-way. -/
structure Answer where
  StatusCode : Int
  content : Bytes
  readError : Option (Nat × GoError)
  deriving DecidableEq, Repr

/-- The transport, the Go type `*http.Client`: for the call made by goroutine
`gid` it gives either a network error or the answer of the server. -/
structure HttpClient where
  answer : Nat → String → Values → Except GoError Answer

/-- The call of the method `(*http.Client).PostForm`: the request goes out and
the spy records it.  The caller then waits for the transport. -/
def HttpClient.PostFormCall (_h : HttpClient) (gid : Nat) (url : String) (values : Values)
    (w : World) : World :=
  { w with posts := w.posts ++ [⟨gid, url, values⟩] }

/-- The return of the method `(*http.Client).PostForm`: a network error, or
the response, which carries an open body whose handle is the calling
goroutine. -/
def HttpClient.PostForm (h : HttpClient) (gid : Nat) (url : String) (values : Values)
    (w : World) : Except GoError Response × World :=
  match h.answer gid url values with
  | .error err => (.error err, w)
  | .ok a =>
    (.ok ⟨a.StatusCode, ⟨gid, a.content, a.readError⟩⟩, { w with opened := w.opened ++ [gid] })

/-- The function `ioutil.ReadAll`: the bytes read until end of stream or until
the first error, together with that error. -/
def ReadAll (body : ReadCloser) : Bytes × Option GoError :=
  match body.readError with
  | none => (body.content, none)
  | some (k, e) => (body.content.take k, some e)

/-- The method `Close` of a response body. -/
def ReadCloser.Close (body : ReadCloser) (w : World) : World :=
  { w with closed := w.closed ++ [body.handle] }

/-- The function `json.Marshal` on an `interface{}` value: the nil interface
encodes as `null`; the encoding of any other value (which may fail, for
example through a `MarshalJSON` hook) is the parameter `marshal`. -/
def jsonMarshal {V : Type} (marshal : V → Except GoError String) :
    Option V → Except GoError String
  | none => .ok "null"
  | some v => marshal v

/-- The struct `httpResponse`: the response and the error of one request. -/
structure httpResponse where
  Resp : Option Response
  Err : Option GoError
  deriving DecidableEq, Repr

/-- The type `requesterFunc`, with the calling goroutine and the world made
explicit.  A requester makes one blocking call: `issue` is the requester up to
the point where it waits for the transport, `complete` is the requester from
the moment the transport answers until it returns its value. -/
structure requesterFunc where
  issue : Nat → String → Values → World → World
  complete : Nat → String → Values → World → httpResponse × World

/-- The struct `Client`. -/
structure Client where
  Url : String
  HttpClient : HttpClient

/-- The struct `GraphQLRequest`.  `Variables` is an `interface{}` (`none` is
nil); the parser returns a value and an error, either of which may be nil. -/
structure GraphQLRequest (V R : Type) where
  Query : String
  Variables : Option V
  ResultParser : Bytes → Option R × Option GoError

/-- The struct `GraphQLResult`. -/
structure GraphQLResult (V R : Type) where
  Query : GraphQLRequest V R
  Result : Option R

/-! ## The channel and the goroutines of `first` -/

/-- A Go channel of `httpResponse`: capacity, buffered values, and the senders
parked on it (goroutine and value), in arrival order. -/
structure Chan where
  cap : Nat
  buf : List httpResponse
  sendq : List (Nat × httpResponse)
  deriving DecidableEq, Repr

/-- The builtin `make(chan httpResponse, cap)`; `make(chan httpResponse)` is
`makeChan 0`. -/
def makeChan (cap : Nat) : Chan := ⟨cap, [], []⟩

/-- Where the caller of `first` stands with respect to its `<-c`. -/
inductive Receiver where
  | notYet
  | waiting
  | got (v : httpResponse)
  deriving DecidableEq, Repr

/-- State of one run of `first`. -/
structure RaceState where
  world : World
  c : Chan
  /-- Goroutines whose requester call has returned, in completion order. -/
  finished : List Nat
  main : Receiver
  deriving DecidableEq, Repr

/-- The value `first` returns, once the caller has received one. -/
def RaceState.received (s : RaceState) : Option httpResponse :=
  match s.main with
  | .got v => some v
  | _ => none

/-- Goroutines parked forever in their channel send. -/
def RaceState.blockedSenders (s : RaceState) : List Nat :=
  s.c.sendq.map Prod.fst

/-- The statement `c <- v` executed by goroutine `gid`. -/
def chanSend (gid : Nat) (v : httpResponse) (s : RaceState) : RaceState :=
  match s.main with
  | .waiting => { s with main := .got v }
  | _ =>
    if s.c.buf.length < s.c.cap then
      { s with c := { s.c with buf := s.c.buf ++ [v] } }
    else
      { s with c := { s.c with sendq := s.c.sendq ++ [(gid, v)] } }

/-- The expression `<-c` executed by the caller (it is executed once). -/
def chanRecv (s : RaceState) : RaceState :=
  match s.main with
  | .notYet =>
    match s.c.buf, s.c.sendq with
    | b :: bs, [] => { s with main := .got b, c := { s.c with buf := bs } }
    | b :: bs, (_, v) :: rest =>
      { s with main := .got b, c := { s.c with buf := bs ++ [v], sendq := rest } }
    | [], (_, v) :: rest => { s with main := .got v, c := { s.c with sendq := rest } }
    | [], [] => { s with main := .waiting }
  | _ => s

/-- One event of a schedule. -/
inductive SchedEvent where
  | finish (gid : Nat)
  | recv
  deriving DecidableEq, Repr

/-- The statement `go firstHelper(i)`: the goroutine starts and runs
`requester[i](url, values)` up to the point where the requester waits for the
transport. -/
def goFirstHelper (url : String) (values : Values) (requester : List requesterFunc)
    (w : World) (i : Nat) : World :=
  match requester[i]? with
  | none => w
  | some r => r.issue i url values w

/-- The loop `for index := range requester { go firstHelper(index) }`. -/
def launch (url : String) (values : Values) (requester : List requesterFunc)
    (w : World) : World :=
  (List.range requester.length).foldl (goFirstHelper url values requester) w

/-- The rest of the closure `firstHelper` of `first`, once the call of
`requester[i]` is answered: the requester returns and the goroutine executes
`c <- requester[i](url, values)`. -/
def firstHelper (url : String) (values : Values) (requester : List requesterFunc)
    (i : Nat) (s : RaceState) : RaceState :=
  match requester[i]? with
  | none => s
  | some r =>
    let out := r.complete i url values s.world
    chanSend i out.1 { s with world := out.2, finished := s.finished ++ [i] }

/-- One scheduling step.  A call returns once; `finish` of a goroutine that
was not launched or whose call has already returned is ignored. -/
def raceStep (url : String) (values : Values) (requester : List requesterFunc)
    (s : RaceState) : SchedEvent → RaceState
  | .finish i => if i ∈ s.finished then s else firstHelper url values requester i s
  | .recv => chanRecv s

/-- The function `first`: an unbuffered channel, one goroutine per requester,
and the caller returns the first value it receives. -/
def first (url : String) (values : Values) (requester : List requesterFunc)
    (sched : List SchedEvent) (w : World) : RaceState :=
  let c := makeChan 0
  let w1 := launch url values requester w
  sched.foldl (raceStep url values requester)
    { world := w1, c := c, finished := [], main := .notYet }

/-! ## The client -/

/-- The function `encodeVariables`. -/
def encodeVariables {V : Type} (marshal : V → Except GoError String)
    (vars : Option V) : String × Option GoError :=
  match jsonMarshal marshal vars with
  | .error err => ("", some err)
  | .ok bytes => (bytes, none)

/-- The closure `requester` of `performRequest`: it calls `PostForm`, and when
the call returns it looks at the error and at the status code. -/
def Client.requester (c : Client) : requesterFunc where
  issue := fun gid url values w => c.HttpClient.PostFormCall gid url values w
  complete := fun gid url values w =>
    match c.HttpClient.PostForm gid url values w with
    | (.error err, w1) => (⟨none, some err⟩, w1)
    | (.ok resp, w1) =>
      if resp.StatusCode ≠ StatusOK then
        (⟨none, some (.ProtocolError
          ("Request received status code: " ++ toString resp.StatusCode))⟩, w1)
      else
        (⟨some resp, none⟩, w1)

/-- The method `Client.performRequest`. -/
def Client.performRequest (c : Client) (url : String) (values : Values)
    (sched : List SchedEvent) (w : World) : RaceState :=
  let requester := c.requester
  let requesters := [requester, requester, requester]
  first url values requesters sched w

/-- The method `GraphQLRequest.parseHttpResponseBody`.  The error of `ReadAll`
is dropped, as in `val, _ := ioutil.ReadAll(body)`. -/
def GraphQLRequest.parseHttpResponseBody {V R : Type} (q : GraphQLRequest V R)
    (body : ReadCloser) (w : World) : (Option R × Option GoError) × World :=
  let val := (ReadAll body).1
  let w1 : World := { w with parserCalls := w.parserCalls ++ [val] }
  match q.ResultParser val with
  | (_, some err) => ((none, some err), w1)
  | (result, none) => ((result, none), w1)

/-- What a call of `Execute` leaves behind: the two return values, the world,
and the goroutines of the race that stay parked in their send. -/
structure Outcome (V R : Type) where
  result : Option (GraphQLResult V R)
  err : Option GoError
  world : World
  blockedSenders : List Nat

/-- The method `Client.Execute`.  The value is `none` when the call does not
return: the caller stays blocked in `<-c` because the schedule delivers
nothing, or it dereferences a nil response. -/
def Client.Execute {V R : Type} (marshal : V → Except GoError String) (c : Client)
    (q : GraphQLRequest V R) (sched : List SchedEvent) (w : World) :
    Option (Outcome V R) :=
  match encodeVariables marshal q.Variables with
  | (_, some encodingError) => some ⟨none, some encodingError, w, []⟩
  | (encodedVars, none) =>
    let s := c.performRequest c.Url [("query", [q.Query]), ("variables", [encodedVars])] sched w
    match s.received with
    | none => none
    | some resp =>
      match resp.Err with
      | some err => some ⟨none, some err, s.world, s.blockedSenders⟩
      | none =>
        match resp.Resp with
        | none => none
        | some r =>
          let parsed := q.parseHttpResponseBody r.Body s.world
          -- `defer resp.Resp.Body.Close()` runs on both returns below
          let w2 := r.Body.Close parsed.2
          match parsed.1 with
          | (_, some parseError) => some ⟨none, some parseError, w2, s.blockedSenders⟩
          | (result, none) => some ⟨some ⟨q, result⟩, none, w2, s.blockedSenders⟩

/-! ## Schedules -/

/-- The first goroutine among the `n` launched ones to finish in a schedule. -/
def firstFinisher (n : Nat) : List SchedEvent → Option Nat
  | [] => none
  | .finish i :: rest => if i < n then some i else firstFinisher n rest
  | .recv :: rest => firstFinisher n rest


/-! ## Fixtures of `client_test.go` and predicates used in the statements -/

/-- The hook `testErrorType.MarshalJSON` of the tests: encoding always fails. -/
def testErrorMarshal : Unit → Except GoError String :=
  fun _ => .error (.other "Failed to Marshal data")

/-- Encoding of a Go string that needs no escaping, as `json.Marshal` gives it
for the variable `"example"` of the tests. -/
def plainStringMarshal : String → Except GoError String :=
  fun s => .ok ("\"" ++ s ++ "\"")

/-- A server that answers every call with the same status and body, as the
`httptest` servers of the tests do. -/
def constServer (status : Int) (body : Bytes) : HttpClient :=
  ⟨fun _ _ _ => .ok ⟨status, body, none⟩⟩

/-- States of `decodeObject`. -/
inductive DecodeState where
  | start
  | keyOrEnd
  | key (k : Bytes)
  | colon (k : Bytes)
  | valueStart (k : Bytes)
  | value (k v : Bytes)
  | commaOrEnd
  | keyStart
  | done
  deriving DecidableEq, Repr

/-- JSON white space. -/
def isSpace (b : Nat) : Bool := b = 32 || b = 9 || b = 10 || b = 13

/-- The text of a byte string. -/
def bytesToString (bs : Bytes) : String := String.mk (bs.map Char.ofNat)

/-- A decoder for the fragment of JSON the tests use with
`json.Unmarshal(*b, &v)`, `v` a `map[string]string`: one object whose keys and
values are strings without escapes. -/
def decodeObject : DecodeState → List (String × String) → Bytes →
    Option (List (String × String))
  | st, acc, [] => if st = .done then some acc else none
  | .start, acc, b :: bs =>
    if isSpace b then decodeObject .start acc bs
    else if b = 123 then decodeObject .keyOrEnd acc bs else none
  | .keyOrEnd, acc, b :: bs =>
    if isSpace b then decodeObject .keyOrEnd acc bs
    else if b = 34 then decodeObject (.key []) acc bs
    else if b = 125 then decodeObject .done acc bs else none
  | .keyStart, acc, b :: bs =>
    if isSpace b then decodeObject .keyStart acc bs
    else if b = 34 then decodeObject (.key []) acc bs else none
  | .key k, acc, b :: bs =>
    if b = 34 then decodeObject (.colon k) acc bs
    else if b = 92 then none else decodeObject (.key (k ++ [b])) acc bs
  | .colon k, acc, b :: bs =>
    if isSpace b then decodeObject (.colon k) acc bs
    else if b = 58 then decodeObject (.valueStart k) acc bs else none
  | .valueStart k, acc, b :: bs =>
    if isSpace b then decodeObject (.valueStart k) acc bs
    else if b = 34 then decodeObject (.value k []) acc bs else none
  | .value k v, acc, b :: bs =>
    if b = 34 then decodeObject .commaOrEnd (acc ++ [(bytesToString k, bytesToString v)]) bs
    else if b = 92 then none else decodeObject (.value k (v ++ [b])) acc bs
  | .commaOrEnd, acc, b :: bs =>
    if isSpace b then decodeObject .commaOrEnd acc bs
    else if b = 44 then decodeObject .keyStart acc bs
    else if b = 125 then decodeObject .done acc bs else none
  | .done, acc, b :: bs => if isSpace b then decodeObject .done acc bs else none

/-- The `ResultParser` of `TestExecuteReturnsGraphQLResultIfSuccessful`. -/
def jsonMapParser (b : Bytes) : Option (List (String × String)) × Option GoError :=
  match decodeObject .start [] b with
  | some m => (some m, none)
  | none => (none, some (.other "invalid JSON"))

/-- The bytes of a text. -/
def stringToBytes (s : String) : Bytes := s.toList.map Char.toNat

/-- The body the test server writes. -/
def testBody : Bytes := stringToBytes "\x7b \"key\": \"Test Result\" \x7d"

/-- A transport on which the call of goroutine `bad` fails with `e` and every
other call is answered with `other`. -/
def oneFailsServer (bad : Nat) (e : GoError) (other : Answer) : HttpClient :=
  ⟨fun g _ _ => if g = bad then .error e else .ok other⟩

/-- A request in the style of the tests, with the JSON-decoding parser. -/
def testRequest : GraphQLRequest String (List (String × String)) :=
  ⟨"query", some "example", jsonMapParser⟩

/-- The form `Execute` posts for `testRequest`. -/
def testForm : Values := [("query", ["query"]), ("variables", ["\"example\""])]

/-- A schedule in which goroutine 1 finishes first, before the caller reaches
its receive, and goroutines 0 and 2 finish later. -/
def failFastSched : List SchedEvent := [.finish 1, .recv, .finish 0, .finish 2]

/-- A server that answers 200 with the body of the tests, on a connection that
breaks after five bytes. -/
def brokenBodyServer : HttpClient :=
  ⟨fun _ _ _ => .ok ⟨200, testBody, some (5, .other "unexpected EOF")⟩⟩

/-- A request whose parser accepts any bytes and returns them. -/
def echoRequest : GraphQLRequest String Bytes :=
  ⟨"query", some "example", fun b => (some b, none)⟩

/-- No requester of the list makes a transport call after its own call has
returned, and none touches the parser and close spies then. -/
def Logging (requester : List requesterFunc) : Prop :=
  ∀ r ∈ requester, ∀ (g : Nat) (url : String) (values : Values) (w : World),
    (r.complete g url values w).2.posts = w.posts ∧
    (r.complete g url values w).2.closed = w.closed ∧
    (r.complete g url values w).2.parserCalls = w.parserCalls

/-- The invariant of the race on the world: the calls recorded at the launch
and the parser and close spies are untouched. -/
structure WorldInv (posts : List PostCall) (w : World) (s : RaceState) : Prop where
  posts : s.world.posts = posts
  closed : s.world.closed = w.closed
  parserCalls : s.world.parserCalls = w.parserCalls

/-- A schedule in which the caller executes its receive and at least one of the
`n` launched goroutines finishes. -/
def Delivers (n : Nat) (sched : List SchedEvent) : Prop :=
  SchedEvent.recv ∈ sched ∧ ∃ i, i < n ∧ SchedEvent.finish i ∈ sched

/-- The invariant of the unbuffered channel of `first`: every goroutine that
has finished either handed its value to the caller or is parked in its send. -/
structure ChanInv (s : RaceState) : Prop where
  cap : s.c.cap = 0
  buf : s.c.buf = []
  count : s.c.sendq.length + (if s.received = none then 0 else 1) = s.finished.length

/-! ## Lemmas on the channel and the race -/

theorem foldl_invariant {σ ε : Type} (step : σ → ε → σ) (P : σ → Prop)
    (hstep : ∀ s e, P s → P (step s e)) :
    ∀ (es : List ε) (s : σ), P s → P (es.foldl step s) := by
  intro es
  induction es with
  | nil => intro s hs; simpa using hs
  | cons e rest ih => intro s hs; exact ih _ (hstep s e hs)

@[simp] theorem chanSend_world (g : Nat) (v : httpResponse) (s : RaceState) :
    (chanSend g v s).world = s.world := by
  unfold chanSend; split <;> [rfl; (split <;> rfl)]

@[simp] theorem chanSend_finished (g : Nat) (v : httpResponse) (s : RaceState) :
    (chanSend g v s).finished = s.finished := by
  unfold chanSend; split <;> [rfl; (split <;> rfl)]

@[simp] theorem chanRecv_world (s : RaceState) : (chanRecv s).world = s.world := by
  unfold chanRecv; split
  · split <;> rfl
  · rfl

@[simp] theorem chanRecv_finished (s : RaceState) : (chanRecv s).finished = s.finished := by
  unfold chanRecv; split
  · split <;> rfl
  · rfl

theorem raceStep_got (url : String) (values : Values) (requester : List requesterFunc)
    (s : RaceState) (e : SchedEvent) (v : httpResponse) (h : s.main = .got v) :
    (raceStep url values requester s e).main = .got v := by
  cases e with
  | finish i =>
    simp only [raceStep]
    split
    · exact h
    · unfold firstHelper
      split
      · exact h
      · simp only [chanSend, h]
        split <;> simp [h]
  | recv =>
    simp only [raceStep, chanRecv, h]

theorem race_got (url : String) (values : Values) (requester : List requesterFunc)
    (sched : List SchedEvent) (s : RaceState) (v : httpResponse) (h : s.main = .got v) :
    (sched.foldl (raceStep url values requester) s).main = .got v :=
  foldl_invariant _ (fun t => t.main = .got v)
    (fun t e ht => raceStep_got url values requester t e v ht) sched s h

theorem getElem?_lt_length {α : Type} (xs : List α) (i : Nat) (x : α)
    (h : xs[i]? = some x) : i < xs.length := by
  by_contra hlt
  have : xs[i]? = none := List.getElem?_eq_none (Nat.le_of_not_lt hlt)
  rw [this] at h
  cases h

/-- While the caller waits in its receive and nobody has finished, the first
launched goroutine to finish hands its value over directly. -/
theorem race_waiting (url : String) (values : Values) (requester : List requesterFunc)
    (i : Nat) (r : requesterFunc) (hr : requester[i]? = some r) :
    ∀ (sched : List SchedEvent) (s : RaceState), s.main = .waiting → s.finished = [] →
      firstFinisher requester.length sched = some i →
      (sched.foldl (raceStep url values requester) s).main = .got (r.complete i url values s.world).1 := by
  intro sched
  induction sched with
  | nil => intro s _ _ hf; simp [firstFinisher] at hf
  | cons e rest ih =>
    intro s hm hfin hf
    cases e with
    | recv =>
      simp only [firstFinisher] at hf
      have hs : raceStep url values requester s .recv = s := by
        simp [raceStep, chanRecv, hm]
      rw [List.foldl_cons, hs]
      exact ih s hm hfin hf
    | finish j =>
      simp only [firstFinisher] at hf
      rw [List.foldl_cons]
      by_cases hj : j < requester.length
      · rw [if_pos hj] at hf
        cases hf
        apply race_got
        simp [raceStep, hfin, firstHelper, hr, chanSend, hm]
      · rw [if_neg hj] at hf
        have hnone : requester[j]? = none := List.getElem?_eq_none (Nat.le_of_not_lt hj)
        have hs : raceStep url values requester s (.finish j) = s := by
          simp [raceStep, hfin, firstHelper, hnone]
        rw [hs]
        exact ih s hm hfin hf

/-- On the unbuffered channel, once a sender is parked and the caller has not
received yet, the caller receives the value of the sender parked first. -/
theorem race_parked (url : String) (values : Values) (requester : List requesterFunc)
    (j : Nat) (v : httpResponse) :
    ∀ (sched : List SchedEvent) (s : RaceState), s.main = .notYet → s.c.cap = 0 →
      s.c.buf = [] → (∃ rest, s.c.sendq = (j, v) :: rest) → SchedEvent.recv ∈ sched →
      (sched.foldl (raceStep url values requester) s).main = .got v := by
  intro sched
  induction sched with
  | nil => intro s _ _ _ _ hr; simp at hr
  | cons e tl ih =>
    intro s hm hcap hbuf hq hrecv
    obtain ⟨rest, hq⟩ := hq
    rw [List.foldl_cons]
    cases e with
    | recv =>
      apply race_got
      simp [raceStep, chanRecv, hm, hbuf, hq]
    | finish k =>
      have hrecv2 : SchedEvent.recv ∈ tl := by
        simpa using hrecv
      simp only [raceStep]
      split
      · exact ih s hm hcap hbuf ⟨rest, hq⟩ hrecv2
      · cases hreq : requester[k]? with
        | none =>
          simp only [firstHelper, hreq]
          exact ih s hm hcap hbuf ⟨rest, hq⟩ hrecv2
        | some r =>
          simp only [firstHelper, hreq]
          apply ih
          · simp [chanSend, hm, hcap]
          · simp [chanSend, hm, hcap]
          · simp [chanSend, hm, hcap, hbuf]
          · exact ⟨rest ++ [(k, (r.complete k url values s.world).1)], by simp [chanSend, hm, hcap, hq]⟩
          · exact hrecv2

/-- From the initial state of `first`, in a schedule where the caller receives,
the caller gets the value of the first launched goroutine to finish. -/
theorem race_fresh (url : String) (values : Values) (requester : List requesterFunc)
    (i : Nat) (r : requesterFunc) (hr : requester[i]? = some r) :
    ∀ (sched : List SchedEvent) (s : RaceState), s.main = .notYet → s.c.cap = 0 →
      s.c.buf = [] → s.c.sendq = [] → s.finished = [] → SchedEvent.recv ∈ sched →
      firstFinisher requester.length sched = some i →
      (sched.foldl (raceStep url values requester) s).main = .got (r.complete i url values s.world).1 := by
  intro sched
  induction sched with
  | nil => intro s _ _ _ _ _ hrecv; simp at hrecv
  | cons e tl ih =>
    intro s hm hcap hbuf hq hfin hrecv hf
    rw [List.foldl_cons]
    cases e with
    | recv =>
      simp only [firstFinisher] at hf
      have h := race_waiting url values requester i r hr tl (raceStep url values requester s .recv)
        (by simp [raceStep, chanRecv, hm, hbuf, hq]) (by simp [raceStep, hfin]) hf
      simpa [raceStep] using h
    | finish j =>
      have hrecv2 : SchedEvent.recv ∈ tl := by
        simpa using hrecv
      simp only [firstFinisher] at hf
      by_cases hj : j < requester.length
      · rw [if_pos hj] at hf
        cases hf
        apply race_parked url values requester i
        · simp [raceStep, hfin, firstHelper, hr, chanSend, hm, hcap]
        · simp [raceStep, hfin, firstHelper, hr, chanSend, hm, hcap]
        · simp [raceStep, hfin, firstHelper, hr, chanSend, hm, hcap, hbuf]
        · exact ⟨[], by simp [raceStep, hfin, firstHelper, hr, chanSend, hm, hcap, hq]⟩
        · exact hrecv2
      · rw [if_neg hj] at hf
        have hnone : requester[j]? = none := List.getElem?_eq_none (Nat.le_of_not_lt hj)
        have hs : raceStep url values requester s (.finish j) = s := by
          simp [raceStep, hfin, firstHelper, hnone]
        rw [hs]
        exact ih s hm hcap hbuf hq hfin hrecv2 hf

/-- The value `first` returns is the outcome of the first goroutine to finish. -/
theorem first_received (url : String) (values : Values) (requester : List requesterFunc)
    (sched : List SchedEvent) (w : World) (i : Nat) (r : requesterFunc)
    (hr : requester[i]? = some r) (hrecv : SchedEvent.recv ∈ sched)
    (hf : firstFinisher requester.length sched = some i) :
    (first url values requester sched w).received =
      some (r.complete i url values (launch url values requester w)).1 := by
  have h := race_fresh url values requester i r hr sched
    { world := launch url values requester w, c := makeChan 0, finished := [], main := .notYet }
    rfl rfl rfl rfl rfl hrecv hf
  simp only [first, RaceState.received, h]

/-! ## What the requester of `performRequest` does to the world -/

theorem requester_posts (c : Client) (g : Nat) (url : String) (values : Values) (w : World) :
    (c.requester.complete g url values w).2.posts = w.posts := by
  simp only [Client.requester, HttpClient.PostForm]
  cases c.HttpClient.answer g url values with
  | error e => rfl
  | ok a => dsimp only; split <;> rfl

theorem requester_closed (c : Client) (g : Nat) (url : String) (values : Values) (w : World) :
    (c.requester.complete g url values w).2.closed = w.closed := by
  simp only [Client.requester, HttpClient.PostForm]
  cases c.HttpClient.answer g url values with
  | error e => rfl
  | ok a => dsimp only; split <;> rfl

theorem requester_parserCalls (c : Client) (g : Nat) (url : String) (values : Values)
    (w : World) : (c.requester.complete g url values w).2.parserCalls = w.parserCalls := by
  simp only [Client.requester, HttpClient.PostForm]
  cases c.HttpClient.answer g url values with
  | error e => rfl
  | ok a => dsimp only; split <;> rfl

theorem requester_of_error (c : Client) (g : Nat) (url : String) (values : Values) (w : World)
    (e : GoError) (h : c.HttpClient.answer g url values = .error e) :
    (c.requester.complete g url values w).1 = ⟨none, some e⟩ := by
  simp [Client.requester, HttpClient.PostForm, h]

theorem requester_of_status (c : Client) (g : Nat) (url : String) (values : Values) (w : World)
    (a : Answer) (h : c.HttpClient.answer g url values = .ok a) (hs : a.StatusCode ≠ StatusOK) :
    (c.requester.complete g url values w).1 =
      ⟨none, some (.ProtocolError ("Request received status code: " ++ toString a.StatusCode))⟩ := by
  simp [Client.requester, HttpClient.PostForm, h, hs]

theorem requester_of_ok (c : Client) (g : Nat) (url : String) (values : Values) (w : World)
    (a : Answer) (h : c.HttpClient.answer g url values = .ok a) (hs : a.StatusCode = StatusOK) :
    (c.requester.complete g url values w).1 =
      ⟨some ⟨a.StatusCode, ⟨g, a.content, a.readError⟩⟩, none⟩ := by
  simp [Client.requester, HttpClient.PostForm, h, hs]

/-- What the requester returns does not depend on the spies. -/
theorem requester_value (c : Client) (g : Nat) (url : String) (values : Values)
    (w w2 : World) :
    (c.requester.complete g url values w).1 = (c.requester.complete g url values w2).1 := by
  simp only [Client.requester, HttpClient.PostForm]
  cases c.HttpClient.answer g url values with
  | error e => rfl
  | ok a => dsimp only; split <;> rfl

theorem logging_performRequest (c : Client) :
    Logging [c.requester, c.requester, c.requester] := by
  intro r hr g url values w
  have : r = c.requester := by simpa using hr
  subst this
  exact ⟨requester_posts c g url values w, requester_closed c g url values w,
    requester_parserCalls c g url values w⟩

theorem worldInv_step (url : String) (values : Values) (requester : List requesterFunc)
    (hlog : Logging requester) (w : World) (s : RaceState) (e : SchedEvent)
    (posts : List PostCall) (h : WorldInv posts w s) :
    WorldInv posts w (raceStep url values requester s e) := by
  cases e with
  | recv =>
    exact ⟨by simpa [raceStep] using h.posts, by simpa [raceStep] using h.closed,
      by simpa [raceStep] using h.parserCalls⟩
  | finish i =>
    simp only [raceStep]
    split
    · exact h
    · cases hreq : requester[i]? with
      | none => simpa [firstHelper, hreq] using h
      | some r =>
        have hmem : r ∈ requester := List.getElem?_mem hreq
        have hl := hlog r hmem i url values s.world
        simp only [firstHelper, hreq]
        refine ⟨?_, ?_, ?_⟩
        · simp [hl.1, h.posts]
        · simp [hl.2.1, h.closed]
        · simp [hl.2.2, h.parserCalls]

theorem worldInv_first (url : String) (values : Values) (requester : List requesterFunc)
    (hlog : Logging requester) (sched : List SchedEvent) (w : World) :
    WorldInv (launch url values requester w).posts (launch url values requester w)
      (first url values requester sched w) :=
  foldl_invariant _
    (WorldInv (launch url values requester w).posts (launch url values requester w))
    (fun s e hs => worldInv_step url values requester hlog _ s e _ hs) sched _
    ⟨rfl, rfl, rfl⟩

/-- The call of a goroutine returns at most once. -/
theorem nodup_step (url : String) (values : Values) (requester : List requesterFunc)
    (s : RaceState) (e : SchedEvent) (h : s.finished.Nodup) :
    (raceStep url values requester s e).finished.Nodup := by
  cases e with
  | recv => simpa [raceStep] using h
  | finish i =>
    simp only [raceStep]
    split
    · exact h
    · rename_i hi
      cases hreq : requester[i]? with
      | none => simpa [firstHelper, hreq] using h
      | some r =>
        simp only [firstHelper, hreq, chanSend_finished]
        exact List.Nodup.append h (List.nodup_singleton i) (by simpa using hi)

theorem nodup_first (url : String) (values : Values) (requester : List requesterFunc)
    (sched : List SchedEvent) (w : World) :
    (first url values requester sched w).finished.Nodup :=
  foldl_invariant _ (fun s => s.finished.Nodup)
    (fun s e hs => nodup_step url values requester s e hs) sched _ List.nodup_nil

/-! ## Schedules and the race of `performRequest` -/

theorem firstFinisher_spec (n : Nat) (i : Nat) :
    ∀ sched : List SchedEvent, firstFinisher n sched = some i →
      i < n ∧ SchedEvent.finish i ∈ sched := by
  intro sched
  induction sched with
  | nil => intro h; simp [firstFinisher] at h
  | cons e tl ih =>
    intro h
    cases e with
    | recv =>
      simp only [firstFinisher] at h
      exact ⟨(ih h).1, List.mem_cons_of_mem _ (ih h).2⟩
    | finish j =>
      simp only [firstFinisher] at h
      by_cases hj : j < n
      · rw [if_pos hj] at h
        cases h
        exact ⟨hj, List.mem_cons_self _ _⟩
      · rw [if_neg hj] at h
        exact ⟨(ih h).1, List.mem_cons_of_mem _ (ih h).2⟩

theorem firstFinisher_exists (n : Nat) (i : Nat) (hi : i < n) :
    ∀ sched : List SchedEvent, SchedEvent.finish i ∈ sched →
      ∃ j, firstFinisher n sched = some j := by
  intro sched
  induction sched with
  | nil => intro h; simp at h
  | cons e tl ih =>
    intro h
    cases e with
    | recv =>
      simp only [firstFinisher]
      exact ih (by simpa using h)
    | finish j =>
      simp only [firstFinisher]
      by_cases hj : j < n
      · exact ⟨j, by rw [if_pos hj]⟩
      · rw [if_neg hj]
        apply ih
        rcases List.mem_cons.mp h with h | h
        · cases h; exact absurd hi hj
        · exact h

theorem Delivers.firstFinisher {n : Nat} {sched : List SchedEvent} (h : Delivers n sched) :
    ∃ j, Graphqlgo.firstFinisher n sched = some j := by
  obtain ⟨_, i, hi, hmem⟩ := h
  exact firstFinisher_exists n i hi sched hmem

theorem three_getElem? (r : requesterFunc) (i : Nat) (hi : i < 3) :
    [r, r, r][i]? = some r := by
  interval_cases i <;> rfl

/-- The race of `performRequest` returns what the requester gives for the
first goroutine to finish. -/
theorem performRequest_received (c : Client) (url : String) (values : Values)
    (sched : List SchedEvent) (w : World) (i : Nat) (hrecv : SchedEvent.recv ∈ sched)
    (hf : firstFinisher 3 sched = some i) :
    (c.performRequest url values sched w).received =
      some (c.requester.complete i url values w).1 := by
  have hi := (firstFinisher_spec 3 i sched hf).1
  have h := first_received url values [c.requester, c.requester, c.requester] sched w i
    c.requester (three_getElem? c.requester i hi) hrecv hf
  rw [requester_value c i url values _ w] at h
  exact h

/-- The launch of `performRequest`: the three calls go out, in the order of
the loop. -/
theorem launch_performRequest (c : Client) (url : String) (values : Values) (w : World) :
    launch url values [c.requester, c.requester, c.requester] w =
      { w with posts := w.posts ++ [⟨0, url, values⟩, ⟨1, url, values⟩, ⟨2, url, values⟩] } := by
  simp [launch, List.range_succ, goFirstHelper, Client.requester, HttpClient.PostFormCall]

theorem performRequest_inv (c : Client) (url : String) (values : Values)
    (sched : List SchedEvent) (w : World) :
    WorldInv (w.posts ++ [⟨0, url, values⟩, ⟨1, url, values⟩, ⟨2, url, values⟩]) w
      (c.performRequest url values sched w) := by
  have h := worldInv_first url values [c.requester, c.requester, c.requester]
    (logging_performRequest c) sched w
  rw [launch_performRequest] at h
  exact ⟨h.posts, h.closed, h.parserCalls⟩

/-- The value the race of `performRequest` returns is never the pair of two
nils: it is an error, or a response with status 200. -/
theorem requester_shape (c : Client) (g : Nat) (url : String) (values : Values) (w : World) :
    (∃ e, (c.requester.complete g url values w).1 = ⟨none, some e⟩) ∨
    (∃ r, (c.requester.complete g url values w).1 = ⟨some r, none⟩) := by
  cases h : c.HttpClient.answer g url values with
  | error e => exact Or.inl ⟨e, requester_of_error c g url values w e h⟩
  | ok a =>
    by_cases hs : a.StatusCode = StatusOK
    · exact Or.inr ⟨_, requester_of_ok c g url values w a h hs⟩
    · exact Or.inl ⟨_, requester_of_status c g url values w a h hs⟩

/-! ## Unfolding `Execute` -/

theorem execute_encoding_error {V R : Type} (marshal : V → Except GoError String)
    (c : Client) (q : GraphQLRequest V R) (sched : List SchedEvent) (w : World)
    (s : String) (e : GoError)
    (henc : encodeVariables marshal q.Variables = (s, some e)) :
    c.Execute marshal q sched w = some ⟨none, some e, w, []⟩ := by
  simp [Client.Execute, henc]

theorem execute_blocked {V R : Type} (marshal : V → Except GoError String)
    (c : Client) (q : GraphQLRequest V R) (sched : List SchedEvent) (w : World)
    (enc : String)
    (henc : encodeVariables marshal q.Variables = (enc, none))
    (hrec : (c.performRequest c.Url [("query", [q.Query]), ("variables", [enc])]
      sched w).received = none) :
    c.Execute marshal q sched w = none := by
  simp [Client.Execute, henc, hrec]

theorem execute_race_error {V R : Type} (marshal : V → Except GoError String)
    (c : Client) (q : GraphQLRequest V R) (sched : List SchedEvent) (w : World)
    (enc : String) (x : Option Response) (e : GoError)
    (henc : encodeVariables marshal q.Variables = (enc, none))
    (hrec : (c.performRequest c.Url [("query", [q.Query]), ("variables", [enc])]
      sched w).received = some ⟨x, some e⟩) :
    c.Execute marshal q sched w = some ⟨none, some e,
      (c.performRequest c.Url [("query", [q.Query]), ("variables", [enc])] sched w).world,
      (c.performRequest c.Url [("query", [q.Query]), ("variables", [enc])]
        sched w).blockedSenders⟩ := by
  simp [Client.Execute, henc, hrec]

theorem execute_parsed {V R : Type} (marshal : V → Except GoError String)
    (c : Client) (q : GraphQLRequest V R) (sched : List SchedEvent) (w : World)
    (enc : String) (r : Response) (v : Option R)
    (henc : encodeVariables marshal q.Variables = (enc, none))
    (hrec : (c.performRequest c.Url [("query", [q.Query]), ("variables", [enc])]
      sched w).received = some ⟨some r, none⟩)
    (hp : q.ResultParser (ReadAll r.Body).1 = (v, none)) :
    c.Execute marshal q sched w = some ⟨some ⟨q, v⟩, none,
      r.Body.Close (q.parseHttpResponseBody r.Body
        (c.performRequest c.Url [("query", [q.Query]), ("variables", [enc])] sched w).world).2,
      (c.performRequest c.Url [("query", [q.Query]), ("variables", [enc])]
        sched w).blockedSenders⟩ := by
  simp [Client.Execute, henc, hrec, GraphQLRequest.parseHttpResponseBody, hp]

theorem execute_parse_error {V R : Type} (marshal : V → Except GoError String)
    (c : Client) (q : GraphQLRequest V R) (sched : List SchedEvent) (w : World)
    (enc : String) (r : Response) (v : Option R) (e : GoError)
    (henc : encodeVariables marshal q.Variables = (enc, none))
    (hrec : (c.performRequest c.Url [("query", [q.Query]), ("variables", [enc])]
      sched w).received = some ⟨some r, none⟩)
    (hp : q.ResultParser (ReadAll r.Body).1 = (v, some e)) :
    c.Execute marshal q sched w = some ⟨none, some e,
      r.Body.Close (q.parseHttpResponseBody r.Body
        (c.performRequest c.Url [("query", [q.Query]), ("variables", [enc])] sched w).world).2,
      (c.performRequest c.Url [("query", [q.Query]), ("variables", [enc])]
        sched w).blockedSenders⟩ := by
  simp [Client.Execute, henc, hrec, GraphQLRequest.parseHttpResponseBody, hp]

theorem parse_world {V R : Type} (q : GraphQLRequest V R)
    (body : ReadCloser) (w0 : World) :
    (q.parseHttpResponseBody body w0).2 =
      { w0 with parserCalls := w0.parserCalls ++ [(ReadAll body).1] } := by
  unfold GraphQLRequest.parseHttpResponseBody
  dsimp only
  split <;> rfl

theorem encodeVariables_cases {V : Type} (marshal : V → Except GoError String)
    (vars : Option V) :
    (∃ e, jsonMarshal marshal vars = .error e ∧ encodeVariables marshal vars = ("", some e)) ∨
    (∃ enc, jsonMarshal marshal vars = .ok enc ∧ encodeVariables marshal vars = (enc, none)) := by
  unfold encodeVariables
  cases h : jsonMarshal marshal vars with
  | error e => exact Or.inl ⟨e, rfl, rfl⟩
  | ok enc => exact Or.inr ⟨enc, rfl, rfl⟩

theorem append_singleton_ne_self {α : Type} (xs : List α) (x : α) : xs ≠ xs ++ [x] := by
  intro h
  have := congrArg List.length h
  simp at this

/-! ## Which goroutines have run -/

theorem raceStep_finished_iff (url : String) (values : Values)
    (requester : List requesterFunc) (s : RaceState) (e : SchedEvent) (i : Nat) :
    i ∈ (raceStep url values requester s e).finished ↔
      i ∈ s.finished ∨ (i < requester.length ∧ e = .finish i) := by
  cases e with
  | recv => simp [raceStep]
  | finish j =>
    simp only [raceStep]
    split
    · rename_i hj
      constructor
      · exact fun h => Or.inl h
      · rintro (h | ⟨_, h⟩)
        · exact h
        · cases h; exact hj
    · cases hreq : requester[j]? with
      | none =>
        have hle : requester.length ≤ j := by
          by_contra hlt
          have h2 := List.getElem?_eq_getElem (Nat.lt_of_not_le hlt)
          rw [hreq] at h2
          cases h2
        simp only [firstHelper, hreq]
        constructor
        · exact fun h => Or.inl h
        · rintro (h | ⟨hlt, h⟩)
          · exact h
          · cases h; omega
      | some r =>
        have hlt : j < requester.length := getElem?_lt_length requester j r hreq
        simp only [firstHelper, hreq, chanSend_finished, List.mem_append, List.mem_singleton]
        constructor
        · rintro (h | h)
          · exact Or.inl h
          · exact Or.inr ⟨h ▸ hlt, by rw [h]⟩
        · rintro (h | ⟨_, h⟩)
          · exact Or.inl h
          · cases h; exact Or.inr rfl

theorem race_finished_iff (url : String) (values : Values) (requester : List requesterFunc)
    (i : Nat) : ∀ (sched : List SchedEvent) (s : RaceState),
      i ∈ (sched.foldl (raceStep url values requester) s).finished ↔
        i ∈ s.finished ∨ (i < requester.length ∧ SchedEvent.finish i ∈ sched) := by
  intro sched
  induction sched with
  | nil => intro s; simp
  | cons e tl ih =>
    intro s
    rw [List.foldl_cons, ih, raceStep_finished_iff]
    constructor
    · rintro ((h | ⟨hlt, h⟩) | ⟨hlt, h⟩)
      · exact Or.inl h
      · exact Or.inr ⟨hlt, by rw [h]; exact List.mem_cons_self _ _⟩
      · exact Or.inr ⟨hlt, List.mem_cons_of_mem _ h⟩
    · rintro (h | ⟨hlt, h⟩)
      · exact Or.inl (Or.inl h)
      · rcases List.mem_cons.mp h with h | h
        · exact Or.inl (Or.inr ⟨hlt, h.symm⟩)
        · exact Or.inr ⟨hlt, h⟩

theorem first_finished_iff (url : String) (values : Values) (requester : List requesterFunc)
    (sched : List SchedEvent) (w : World) (i : Nat) :
    i ∈ (first url values requester sched w).finished ↔
      i < requester.length ∧ SchedEvent.finish i ∈ sched := by
  unfold first
  rw [race_finished_iff]
  simp

theorem nodup_length_eq (n : Nat) (l : List Nat) (hn : l.Nodup) (hb : ∀ i, i ∈ l ↔ i < n) :
    l.length = n := by
  have hperm : l.Perm (List.range n) :=
    (List.perm_ext_iff_of_nodup hn (List.nodup_range n)).mpr
      (fun i => by rw [hb i, List.mem_range])
  simpa using hperm.length_eq

/-! ## The unbuffered channel -/

theorem chanInv_step (url : String) (values : Values) (requester : List requesterFunc)
    (s : RaceState) (e : SchedEvent) (h : ChanInv s) :
    ChanInv (raceStep url values requester s e) := by
  obtain ⟨hcap, hbuf, hcount⟩ := h
  cases e with
  | recv =>
    cases hm : s.main with
    | notYet =>
      cases hq : s.c.sendq with
      | nil =>
        simp only [RaceState.received, hm, hq] at hcount
        refine ⟨?_, ?_, ?_⟩ <;>
          simp [raceStep, chanRecv, RaceState.received, hm, hbuf, hq, hcap]
        simpa using hcount
      | cons p rest =>
        simp only [RaceState.received, hm, hq] at hcount
        refine ⟨?_, ?_, ?_⟩ <;>
          simp [raceStep, chanRecv, RaceState.received, hm, hbuf, hq, hcap]
        simpa using hcount
    | waiting => simpa [raceStep, chanRecv, hm] using (⟨hcap, hbuf, hcount⟩ : ChanInv s)
    | got v => simpa [raceStep, chanRecv, hm] using (⟨hcap, hbuf, hcount⟩ : ChanInv s)
  | finish j =>
    simp only [raceStep]
    split
    · exact ⟨hcap, hbuf, hcount⟩
    · cases hreq : requester[j]? with
      | none => simpa [firstHelper, hreq] using (⟨hcap, hbuf, hcount⟩ : ChanInv s)
      | some r =>
        cases hm : s.main with
        | waiting =>
          simp only [RaceState.received, hm] at hcount
          refine ⟨?_, ?_, ?_⟩ <;>
            simp [firstHelper, hreq, chanSend, RaceState.received, hm, hbuf, hcap]
          simpa using hcount
        | notYet =>
          simp only [RaceState.received, hm] at hcount
          refine ⟨?_, ?_, ?_⟩ <;>
            simp [firstHelper, hreq, chanSend, RaceState.received, hm, hbuf, hcap]
          simpa using hcount
        | got v =>
          simp only [RaceState.received, hm] at hcount
          refine ⟨?_, ?_, ?_⟩ <;>
            simp [firstHelper, hreq, chanSend, RaceState.received, hm, hbuf, hcap]
          simpa using hcount

theorem chanInv_first (url : String) (values : Values) (requester : List requesterFunc)
    (sched : List SchedEvent) (w : World) :
    ChanInv (first url values requester sched w) :=
  foldl_invariant _ ChanInv (fun s e hs => chanInv_step url values requester s e hs) sched _
    ⟨rfl, rfl, rfl⟩

theorem requester_congr (c c2 : Client) (g : Nat) (url : String) (values : Values)
    (w : World) (h : c2.HttpClient.answer g url values = c.HttpClient.answer g url values) :
    (c2.requester.complete g url values w).1 = (c.requester.complete g url values w).1 := by
  cases ha : c.HttpClient.answer g url values with
  | error e =>
    rw [requester_of_error c g url values w e ha,
      requester_of_error c2 g url values w e (h.trans ha)]
  | ok a =>
    by_cases hs : a.StatusCode = StatusOK
    · rw [requester_of_ok c g url values w a ha hs,
        requester_of_ok c2 g url values w a (h.trans ha) hs]
    · rw [requester_of_status c g url values w a ha hs,
        requester_of_status c2 g url values w a (h.trans ha) hs]

/-- What `Execute` returns is a function of the value the race delivers. -/
theorem execute_returns_congr {V R : Type} (marshal : V → Except GoError String)
    (c c2 : Client) (q : GraphQLRequest V R) (sched : List SchedEvent) (w : World)
    (enc : String) (resp : httpResponse)
    (henc : encodeVariables marshal q.Variables = (enc, none))
    (hshape : (∃ e, resp = ⟨none, some e⟩) ∨ (∃ r, resp = ⟨some r, none⟩))
    (h1 : (c.performRequest c.Url [("query", [q.Query]), ("variables", [enc])]
      sched w).received = some resp)
    (h2 : (c2.performRequest c2.Url [("query", [q.Query]), ("variables", [enc])]
      sched w).received = some resp) :
    ∃ out out2, c.Execute marshal q sched w = some out ∧
      c2.Execute marshal q sched w = some out2 ∧
      out.result = out2.result ∧ out.err = out2.err := by
  rcases hshape with ⟨e, rfl⟩ | ⟨r, rfl⟩
  · exact ⟨_, _, execute_race_error marshal c q sched w enc none e henc h1,
      execute_race_error marshal c2 q sched w enc none e henc h2, rfl, rfl⟩
  · cases hp : q.ResultParser (ReadAll r.Body).1 with
    | mk v pe =>
      cases pe with
      | none =>
        exact ⟨_, _, execute_parsed marshal c q sched w enc r v henc h1 hp,
          execute_parsed marshal c2 q sched w enc r v henc h2 hp, rfl, rfl⟩
      | some e =>
        exact ⟨_, _, execute_parse_error marshal c q sched w enc r v e henc h1 hp,
          execute_parse_error marshal c2 q sched w enc r v e henc h2 hp, rfl, rfl⟩

/-- After the race, `Execute` makes no transport call and opens no body. -/
theorem execute_world {V R : Type} (marshal : V → Except GoError String)
    (c : Client) (q : GraphQLRequest V R) (sched : List SchedEvent) (w : World)
    (enc : String) (out : Outcome V R)
    (henc : encodeVariables marshal q.Variables = (enc, none))
    (hout : c.Execute marshal q sched w = some out) :
    out.world.posts =
      (c.performRequest c.Url [("query", [q.Query]), ("variables", [enc])] sched w).world.posts ∧
    out.world.opened =
      (c.performRequest c.Url [("query", [q.Query]), ("variables", [enc])] sched w).world.opened ∧
    out.blockedSenders =
      (c.performRequest c.Url [("query", [q.Query]), ("variables", [enc])]
        sched w).blockedSenders := by
  cases hrec : (c.performRequest c.Url [("query", [q.Query]), ("variables", [enc])]
      sched w).received with
  | none =>
    rw [execute_blocked marshal c q sched w enc henc hrec] at hout
    cases hout
  | some resp =>
    obtain ⟨x, y⟩ := resp
    cases y with
    | some e =>
      rw [execute_race_error marshal c q sched w enc x e henc hrec] at hout
      cases hout
      exact ⟨rfl, rfl, rfl⟩
    | none =>
      cases x with
      | none =>
        have hnone : c.Execute marshal q sched w = none := by
          simp [Client.Execute, henc, hrec]
        rw [hnone] at hout
        cases hout
      | some r =>
        cases hp : q.ResultParser (ReadAll r.Body).1 with
        | mk v pe =>
          cases pe with
          | none =>
            rw [execute_parsed marshal c q sched w enc r v henc hrec hp] at hout
            cases hout
            simp [parse_world, ReadCloser.Close]
          | some e =>
            rw [execute_parse_error marshal c q sched w enc r v e henc hrec hp] at hout
            cases hout
            simp [parse_world, ReadCloser.Close]

/-- In a schedule that delivers an outcome, `Execute` returns. -/
theorem execute_returns {V R : Type} (marshal : V → Except GoError String)
    (c : Client) (q : GraphQLRequest V R) (sched : List SchedEvent) (w : World)
    (enc : String)
    (henc : encodeVariables marshal q.Variables = (enc, none)) (hd : Delivers 3 sched) :
    ∃ out, c.Execute marshal q sched w = some out := by
  obtain ⟨i, hi⟩ := hd.firstFinisher
  have hrec := performRequest_received c c.Url [("query", [q.Query]), ("variables", [enc])]
    sched w i hd.1 hi
  rcases requester_shape c i c.Url [("query", [q.Query]), ("variables", [enc])] w
    with ⟨e, he⟩ | ⟨r, he⟩
  · rw [he] at hrec
    exact ⟨_, execute_race_error marshal c q sched w enc none e henc hrec⟩
  · rw [he] at hrec
    cases hp : q.ResultParser (ReadAll r.Body).1 with
    | mk v pe =>
      cases pe with
      | none => exact ⟨_, execute_parsed marshal c q sched w enc r v henc hrec hp⟩
      | some e => exact ⟨_, execute_parse_error marshal c q sched w enc r v e henc hrec hp⟩

/-! ## Bodies handed out during the race -/

theorem requester_opened_mono (c : Client) (g h : Nat) (url : String) (values : Values)
    (w : World) (hh : h ∈ w.opened) : h ∈ (c.requester.complete g url values w).2.opened := by
  simp only [Client.requester, HttpClient.PostForm]
  cases c.HttpClient.answer g url values with
  | error e => exact hh
  | ok a =>
    dsimp only
    split <;> exact List.mem_append_left _ hh

theorem requester_opened_self (c : Client) (g : Nat) (url : String) (values : Values)
    (w : World) (a : Answer) (ha : c.HttpClient.answer g url values = .ok a) :
    g ∈ (c.requester.complete g url values w).2.opened := by
  simp only [Client.requester, HttpClient.PostForm]
  rw [ha]
  dsimp only
  split <;> simp

/-- Every goroutine that has run and was answered by the server holds a body
handed out by the transport. -/
theorem opened_step (c : Client) (url : String) (values : Values) (s : RaceState)
    (e : SchedEvent)
    (h : ∀ g ∈ s.finished, (∃ a, c.HttpClient.answer g url values = .ok a) → g ∈ s.world.opened) :
    ∀ g ∈ (raceStep url values [c.requester, c.requester, c.requester] s e).finished,
      (∃ a, c.HttpClient.answer g url values = .ok a) →
      g ∈ (raceStep url values [c.requester, c.requester, c.requester] s e).world.opened := by
  cases e with
  | recv => simpa [raceStep] using h
  | finish j =>
    simp only [raceStep]
    split
    · exact h
    · cases hreq : [c.requester, c.requester, c.requester][j]? with
      | none => simpa [firstHelper, hreq] using h
      | some r =>
        have hr : r = c.requester := by
          have := List.getElem?_mem hreq
          simpa using this
        subst hr
        simp only [firstHelper, hreq, chanSend_finished, chanSend_world, List.mem_append,
          List.mem_singleton]
        rintro g (hg | hg) ⟨a, ha⟩
        · exact requester_opened_mono c j g url values s.world (h g hg ⟨a, ha⟩)
        · subst hg
          exact requester_opened_self c g url values s.world a ha

theorem performRequest_opened (c : Client) (url : String) (values : Values)
    (sched : List SchedEvent) (w : World) (g : Nat) (a : Answer)
    (hg : g < 3) (hfin : SchedEvent.finish g ∈ sched)
    (ha : c.HttpClient.answer g url values = .ok a) :
    g ∈ (c.performRequest url values sched w).world.opened := by
  have hinv := foldl_invariant (raceStep url values [c.requester, c.requester, c.requester])
    (fun s => ∀ g ∈ s.finished, (∃ a, c.HttpClient.answer g url values = .ok a) →
      g ∈ s.world.opened)
    (fun s e hs => opened_step c url values s e hs) sched
    { world := launch url values [c.requester, c.requester, c.requester] w, c := makeChan 0,
      finished := [], main := .notYet } (by simp)
  exact hinv g ((first_finished_iff url values [c.requester, c.requester, c.requester]
    sched w g).mpr ⟨hg, hfin⟩) ⟨a, ha⟩

/-! ## The claims -/

/-- Claim C1. When the variables of a request fail JSON serialization with the
error `e`, `Execute` returns (for every schedule) a nil result together with
`e`; no `PostForm` call is made and the `ResultParser` is not invoked. -/
theorem execute_encoding_failure {V R : Type} (marshal : V → Except GoError String)
    (c : Client) (q : GraphQLRequest V R) (sched : List SchedEvent) (w : World) (e : GoError)
    (hfail : jsonMarshal marshal q.Variables = .error e) :
    (encodeVariables marshal q.Variables).2 = some e ∧
    ∃ out, c.Execute marshal q sched w = some out ∧
      out.result = none ∧ out.err = some e ∧
      out.world.posts = w.posts ∧ out.world.parserCalls = w.parserCalls := by
  have henc : encodeVariables marshal q.Variables = ("", some e) := by
    simp [encodeVariables, hfail]
  refine ⟨by rw [henc], _, execute_encoding_error marshal c q sched w "" e henc, rfl, rfl, rfl, rfl⟩

/-- The test `TestExecuteReturnsErrorIfVariableMarshallingToStringFails`, with a
spy on the transport. -/
theorem execute_encoding_failure_witness :
    jsonMarshal testErrorMarshal (some ()) = .error (.other "Failed to Marshal data") ∧
    ((encodeVariables testErrorMarshal (some ())).2 = some (.other "Failed to Marshal data") ∧
    ∃ out, (Client.mk "" (constServer 200 [])).Execute testErrorMarshal
        (⟨"", some (), fun _ => ((none : Option Unit), none)⟩ : GraphQLRequest Unit Unit)
        [.recv, .finish 0, .finish 1, .finish 2] World.empty = some out ∧
      out.result = none ∧ out.err = some (.other "Failed to Marshal data") ∧
      out.world.posts = World.empty.posts ∧ out.world.parserCalls = World.empty.parserCalls) :=
  ⟨rfl, execute_encoding_failure testErrorMarshal (Client.mk "" (constServer 200 []))
    ⟨"", some (), fun _ => (none, none)⟩ [.recv, .finish 0, .finish 1, .finish 2]
    World.empty (.other "Failed to Marshal data") rfl⟩

/-- Claim C2. When the variables encode and the transport answers every attempt
without a network error but with a status code other than 200, then in every
schedule that delivers an outcome `Execute` returns a nil result and the
protocol error whose message carries the status code of the winning attempt,
and the `ResultParser` is not invoked. -/
theorem execute_status_not_ok {V R : Type} (marshal : V → Except GoError String)
    (c : Client) (q : GraphQLRequest V R) (sched : List SchedEvent) (w : World) (enc : String)
    (henc : jsonMarshal marshal q.Variables = .ok enc)
    (hans : ∀ g url values, ∃ a, c.HttpClient.answer g url values = .ok a ∧
      a.StatusCode ≠ StatusOK)
    (hsched : Delivers 3 sched) :
    ∃ out i a, c.Execute marshal q sched w = some out ∧
      firstFinisher 3 sched = some i ∧
      c.HttpClient.answer i c.Url [("query", [q.Query]), ("variables", [enc])] = .ok a ∧
      a.StatusCode ≠ StatusOK ∧
      out.result = none ∧
      out.err = some (.ProtocolError
        ("Request received status code: " ++ toString a.StatusCode)) ∧
      out.world.parserCalls = w.parserCalls := by
  have henc2 : encodeVariables marshal q.Variables = (enc, none) := by
    simp [encodeVariables, henc]
  obtain ⟨i, hi⟩ := hsched.firstFinisher
  obtain ⟨a, ha, hs⟩ := hans i c.Url [("query", [q.Query]), ("variables", [enc])]
  have hrec := performRequest_received c c.Url [("query", [q.Query]), ("variables", [enc])]
    sched w i hsched.1 hi
  rw [requester_of_status c i _ _ w a ha hs] at hrec
  refine ⟨_, i, a, execute_race_error marshal c q sched w enc none _ henc2 hrec, hi, ha, hs,
    rfl, rfl, ?_⟩
  exact (performRequest_inv c c.Url _ sched w).parserCalls

/-- The test `TestExecuteReturnsErrorIfStatusCodeIsNotOkay`: the server answers
400 (`http.StatusBadRequest`). -/
theorem execute_status_not_ok_witness :
    (jsonMarshal plainStringMarshal (some "example") = .ok "\"example\"" ∧
     (∀ g url values, ∃ a, (constServer 400 []).answer g url values = .ok a ∧
       a.StatusCode ≠ StatusOK) ∧
     Delivers 3 [.recv, .finish 2, .finish 0, .finish 1]) ∧
    ∃ out i a, (Client.mk "http://127.0.0.1" (constServer 400 [])).Execute plainStringMarshal
        (⟨"query", some "example", fun _ => (some "dha", none)⟩ : GraphQLRequest String String)
        [.recv, .finish 2, .finish 0, .finish 1] World.empty = some out ∧
      firstFinisher 3 [.recv, .finish 2, .finish 0, .finish 1] = some i ∧
      (constServer 400 []).answer i "http://127.0.0.1"
        [("query", ["query"]), ("variables", ["\"example\""])] = .ok a ∧
      a.StatusCode ≠ StatusOK ∧
      out.result = none ∧
      out.err = some (.ProtocolError
        ("Request received status code: " ++ toString a.StatusCode)) ∧
      out.world.parserCalls = World.empty.parserCalls :=
  ⟨⟨rfl, fun _ _ _ => ⟨_, rfl, by decide⟩, by decide, 2, by decide, by decide⟩,
   execute_status_not_ok plainStringMarshal (Client.mk "http://127.0.0.1" (constServer 400 []))
    ⟨"query", some "example", fun _ => (some "dha", none)⟩
    [.recv, .finish 2, .finish 0, .finish 1] World.empty "\"example\"" rfl
    (fun _ _ _ => ⟨_, rfl, by decide⟩) ⟨by decide, 2, by decide, by decide⟩⟩

/-- Claim C3. When the variables encode, the transport answers every attempt
with status 200 and the body `b` (delivered in full), and the parser gives
`(v, nil)` on `b`, then in every schedule that delivers an outcome `Execute`
returns no error and a result whose `Query` is the request `q` and whose
`Result` is `v`. -/
theorem execute_success {V R : Type} (marshal : V → Except GoError String)
    (c : Client) (q : GraphQLRequest V R) (sched : List SchedEvent) (w : World) (enc : String)
    (b : Bytes) (v : Option R)
    (henc : jsonMarshal marshal q.Variables = .ok enc)
    (hpar : q.ResultParser b = (v, none))
    (hans : ∀ g url values, c.HttpClient.answer g url values = .ok ⟨StatusOK, b, none⟩)
    (hsched : Delivers 3 sched) :
    ∃ out res, c.Execute marshal q sched w = some out ∧
      out.err = none ∧ out.result = some res ∧ res.Query = q ∧ res.Result = v := by
  have henc2 : encodeVariables marshal q.Variables = (enc, none) := by
    simp [encodeVariables, henc]
  obtain ⟨i, hi⟩ := hsched.firstFinisher
  have hrec := performRequest_received c c.Url [("query", [q.Query]), ("variables", [enc])]
    sched w i hsched.1 hi
  rw [requester_of_ok c i _ _ w _ (hans i _ _) rfl] at hrec
  exact ⟨_, ⟨q, v⟩, execute_parsed marshal c q sched w enc _ v henc2 hrec hpar, rfl, rfl, rfl, rfl⟩

/-- The test `TestExecuteReturnsGraphQLResultIfSuccessful`: the body is
`{ "key": "Test Result" }` and the parser decodes a JSON object into a mapping;
the result maps `key` to `Test Result`. -/
theorem execute_success_witness :
    (jsonMarshal plainStringMarshal (some "example") = .ok "\"example\"" ∧
     jsonMapParser testBody = (some [("key", "Test Result")], none) ∧
     (∀ g url values, (constServer 200 testBody).answer g url values =
       .ok ⟨StatusOK, testBody, none⟩) ∧
     Delivers 3 [.finish 1, .recv, .finish 0, .finish 2]) ∧
    ∃ out res, (Client.mk "http://127.0.0.1" (constServer 200 testBody)).Execute
        plainStringMarshal
        (⟨"query", some "example", jsonMapParser⟩ :
          GraphQLRequest String (List (String × String)))
        [.finish 1, .recv, .finish 0, .finish 2] World.empty = some out ∧
      out.err = none ∧ out.result = some res ∧
      res.Query = ⟨"query", some "example", jsonMapParser⟩ ∧
      res.Result = some [("key", "Test Result")] :=
  ⟨⟨rfl, by decide, fun _ _ _ => rfl, by decide, 1, by decide, by decide⟩,
   execute_success plainStringMarshal (Client.mk "http://127.0.0.1" (constServer 200 testBody))
    ⟨"query", some "example", jsonMapParser⟩ [.finish 1, .recv, .finish 0, .finish 2]
    World.empty "\"example\"" testBody (some [("key", "Test Result")]) rfl (by decide)
    (fun _ _ _ => rfl) ⟨by decide, 1, by decide, by decide⟩⟩

/-- Claim C4. `Execute` returns in every schedule that delivers an outcome, and
whenever it returns, exactly one of result and error is non-nil; a result is
returned only if the `ResultParser` was invoked (once, during this call) and
gave no error; and if the parser was invoked and gave the error `e`, `Execute`
returns `e` and a nil result. -/
theorem execute_result_xor_error {V R : Type} (marshal : V → Except GoError String)
    (c : Client) (q : GraphQLRequest V R) (sched : List SchedEvent) (w : World) :
    (Delivers 3 sched → ∃ out, c.Execute marshal q sched w = some out) ∧
    ∀ out, c.Execute marshal q sched w = some out →
      ((out.result ≠ none ∧ out.err = none) ∨ (out.result = none ∧ out.err ≠ none)) ∧
      (out.result ≠ none → ∃ bytes, out.world.parserCalls = w.parserCalls ++ [bytes] ∧
        (q.ResultParser bytes).2 = none) ∧
      (∀ bytes e, out.world.parserCalls = w.parserCalls ++ [bytes] →
        (q.ResultParser bytes).2 = some e → out.result = none ∧ out.err = some e) := by
  rcases encodeVariables_cases marshal q.Variables with ⟨e, _, henc⟩ | ⟨enc, _, henc⟩
  · rw [execute_encoding_error marshal c q sched w "" e henc]
    refine ⟨fun _ => ⟨_, rfl⟩, ?_⟩
    intro out hout
    cases hout
    refine ⟨Or.inr ⟨rfl, by simp⟩, fun h => absurd rfl h, ?_⟩
    intro bytes e2 hb _
    exact absurd hb (append_singleton_ne_self _ _)
  · have hinv := performRequest_inv c c.Url [("query", [q.Query]), ("variables", [enc])] sched w
    cases hrec : (c.performRequest c.Url [("query", [q.Query]), ("variables", [enc])]
        sched w).received with
    | none =>
      rw [execute_blocked marshal c q sched w enc henc hrec]
      constructor
      · intro hd
        obtain ⟨i, hi⟩ := hd.firstFinisher
        have := performRequest_received c c.Url [("query", [q.Query]), ("variables", [enc])]
          sched w i hd.1 hi
        rw [hrec] at this
        cases this
      · intro out hout
        cases hout
    | some resp =>
      obtain ⟨x, y⟩ := resp
      cases y with
      | some e =>
        rw [execute_race_error marshal c q sched w enc x e henc hrec]
        refine ⟨fun _ => ⟨_, rfl⟩, ?_⟩
        intro out hout
        cases hout
        refine ⟨Or.inr ⟨rfl, by simp⟩, fun h => absurd rfl h, ?_⟩
        intro bytes e2 hb _
        rw [hinv.parserCalls] at hb
        exact absurd hb (append_singleton_ne_self _ _)
      | none =>
        cases x with
        | none =>
          have hnone : c.Execute marshal q sched w = none := by
            simp [Client.Execute, henc, hrec]
          rw [hnone]
          constructor
          · intro hd
            obtain ⟨i, hi⟩ := hd.firstFinisher
            have h2 := performRequest_received c c.Url
              [("query", [q.Query]), ("variables", [enc])] sched w i hd.1 hi
            rw [hrec] at h2
            rcases requester_shape c i c.Url [("query", [q.Query]), ("variables", [enc])] w
              with ⟨e, he⟩ | ⟨r, he⟩
            · rw [he] at h2; cases h2
            · rw [he] at h2; cases h2
          · intro out hout
            cases hout
        | some r =>
          have hcalls : ∀ w0 : World, w0.parserCalls = w.parserCalls →
              (r.Body.Close (q.parseHttpResponseBody r.Body w0).2).parserCalls =
                w.parserCalls ++ [(ReadAll r.Body).1] := by
            intro w0 h0
            rw [parse_world]
            simp [ReadCloser.Close, h0]
          cases hp : q.ResultParser (ReadAll r.Body).1 with
          | mk v pe =>
            cases pe with
            | none =>
              rw [execute_parsed marshal c q sched w enc r v henc hrec hp]
              refine ⟨fun _ => ⟨_, rfl⟩, ?_⟩
              intro out hout
              cases hout
              refine ⟨Or.inl ⟨by simp, rfl⟩, fun _ => ⟨_, hcalls _ hinv.parserCalls, ?_⟩, ?_⟩
              · rw [hp]
              · intro bytes e2 hb he2
                rw [hcalls _ hinv.parserCalls] at hb
                have hbe : (ReadAll r.Body).1 = bytes := by
                  simpa using hb
                rw [← hbe, hp] at he2
                cases he2
            | some e =>
              rw [execute_parse_error marshal c q sched w enc r v e henc hrec hp]
              refine ⟨fun _ => ⟨_, rfl⟩, ?_⟩
              intro out hout
              cases hout
              refine ⟨Or.inr ⟨rfl, by simp⟩, fun h => absurd rfl h, ?_⟩
              intro bytes e2 hb he2
              rw [hcalls _ hinv.parserCalls] at hb
              have hbe : (ReadAll r.Body).1 = bytes := by
                simpa using hb
              rw [← hbe, hp] at he2
              cases he2
              exact ⟨rfl, rfl⟩

/-- A call in which the parser is invoked and fails: the server answers 200
with a body that is not JSON. -/
theorem execute_result_xor_error_witness :
    Delivers 3 failFastSched ∧
    ∃ out, (Client.mk "http://h" (constServer 200 [111, 111, 112, 115])).Execute
        plainStringMarshal testRequest failFastSched World.empty = some out ∧
      ((out.result ≠ none ∧ out.err = none) ∨ (out.result = none ∧ out.err ≠ none)) ∧
      out.world.parserCalls = World.empty.parserCalls ++ [[111, 111, 112, 115]] ∧
      (testRequest.ResultParser [111, 111, 112, 115]).2 = some (.other "invalid JSON") ∧
      out.result = none ∧ out.err = some (.other "invalid JSON") := by
  have h := execute_result_xor_error plainStringMarshal
    (Client.mk "http://h" (constServer 200 [111, 111, 112, 115])) testRequest failFastSched
    World.empty
  have hd : Delivers 3 failFastSched := ⟨by decide, 1, by decide, by decide⟩
  obtain ⟨out, ho⟩ := h.1 hd
  have hw : ((Client.mk "http://h" (constServer 200 [111, 111, 112, 115])).Execute
      plainStringMarshal testRequest failFastSched World.empty).map
        (fun o => o.world.parserCalls) = some [[111, 111, 112, 115]] := by decide
  rw [ho] at hw
  have hw2 : out.world.parserCalls = World.empty.parserCalls ++ [[111, 111, 112, 115]] := by
    simpa [World.empty] using hw
  exact ⟨hd, out, ho, (h.2 out ho).1, hw2, by decide, (h.2 out ho).2.2 _ _ hw2 (by decide)⟩

/-- Claim C5. With the completion order given by the schedule, in which the
caller receives: `first` returns exactly the outcome of the goroutine that
finishes first, response or error; so when the attempt that finishes first
fails with `e`, `Execute` returns `e` and no result whatever the other attempts
give; and two transports that agree on the attempt that finishes first make
`Execute` return the same result and error. -/
theorem first_returns_first_finisher {V R : Type} (url : String) (values : Values)
    (requester : List requesterFunc) (r : requesterFunc)
    (marshal : V → Except GoError String) (c c2 : Client) (q : GraphQLRequest V R)
    (sched : List SchedEvent) (w : World) (i : Nat) (enc : String)
    (hrecv : SchedEvent.recv ∈ sched) :
    (requester[i]? = some r → firstFinisher requester.length sched = some i →
      (first url values requester sched w).received =
        some (r.complete i url values (launch url values requester w)).1) ∧
    (jsonMarshal marshal q.Variables = .ok enc → firstFinisher 3 sched = some i →
      (∀ e, c.HttpClient.answer i c.Url [("query", [q.Query]), ("variables", [enc])] = .error e →
        ∃ out, c.Execute marshal q sched w = some out ∧ out.result = none ∧ out.err = some e) ∧
      (c2.Url = c.Url →
        c2.HttpClient.answer i c.Url [("query", [q.Query]), ("variables", [enc])] =
          c.HttpClient.answer i c.Url [("query", [q.Query]), ("variables", [enc])] →
        ∃ out out2, c.Execute marshal q sched w = some out ∧
          c2.Execute marshal q sched w = some out2 ∧
          out.result = out2.result ∧ out.err = out2.err)) := by
  refine ⟨fun hr hf => first_received url values requester sched w i r hr hrecv hf, ?_⟩
  intro henc hf
  have henc2 : encodeVariables marshal q.Variables = (enc, none) := by
    simp [encodeVariables, henc]
  have hrec := performRequest_received c c.Url [("query", [q.Query]), ("variables", [enc])]
    sched w i hrecv hf
  constructor
  · intro e he
    rw [requester_of_error c i _ _ w e he] at hrec
    exact ⟨_, execute_race_error marshal c q sched w enc none e henc2 hrec, rfl, rfl⟩
  · intro hurl hans
    have hrec2 := performRequest_received c2 c2.Url
      [("query", [q.Query]), ("variables", [enc])] sched w i hrecv hf
    rw [hurl, requester_congr c c2 i c.Url _ w hans] at hrec2
    have hrec3 : (c2.performRequest c2.Url [("query", [q.Query]), ("variables", [enc])]
        sched w).received =
        some (c.requester.complete i c.Url [("query", [q.Query]), ("variables", [enc])] w).1 := by
      rw [hurl]; exact hrec2
    exact execute_returns_congr marshal c c2 q sched w enc _ henc2
      (requester_shape c i c.Url _ w) hrec hrec3

/-- Attempt 1 fails fast and attempts 0 and 2 succeed later: `Execute` returns
the error of attempt 1 and no result, also when the later attempts are
answered differently. -/
theorem first_returns_first_finisher_witness :
    (SchedEvent.recv ∈ failFastSched ∧
      firstFinisher 3 failFastSched = some 1 ∧
      jsonMarshal plainStringMarshal testRequest.Variables = .ok "\"example\"") ∧
    (first "http://h" testForm
        [(Client.mk "http://h" (oneFailsServer 1 (.other "refused") ⟨200, testBody, none⟩)).requester,
         (Client.mk "http://h" (oneFailsServer 1 (.other "refused") ⟨200, testBody, none⟩)).requester,
         (Client.mk "http://h" (oneFailsServer 1 (.other "refused") ⟨200, testBody, none⟩)).requester]
        failFastSched World.empty).received = some ⟨none, some (.other "refused")⟩ ∧
    (∃ out, (Client.mk "http://h"
        (oneFailsServer 1 (.other "refused") ⟨200, testBody, none⟩)).Execute
        plainStringMarshal testRequest failFastSched World.empty = some out ∧
      out.result = none ∧ out.err = some (.other "refused")) ∧
    (∃ out out2, (Client.mk "http://h"
        (oneFailsServer 1 (.other "refused") ⟨200, testBody, none⟩)).Execute
        plainStringMarshal testRequest failFastSched World.empty = some out ∧
      (Client.mk "http://h" (oneFailsServer 1 (.other "refused") ⟨500, [], none⟩)).Execute
        plainStringMarshal testRequest failFastSched World.empty = some out2 ∧
      out.result = out2.result ∧ out.err = out2.err) :=
  have h := first_returns_first_finisher "http://h" testForm
    [(Client.mk "http://h" (oneFailsServer 1 (.other "refused") ⟨200, testBody, none⟩)).requester,
     (Client.mk "http://h" (oneFailsServer 1 (.other "refused") ⟨200, testBody, none⟩)).requester,
     (Client.mk "http://h" (oneFailsServer 1 (.other "refused") ⟨200, testBody, none⟩)).requester]
    (Client.mk "http://h" (oneFailsServer 1 (.other "refused") ⟨200, testBody, none⟩)).requester
    plainStringMarshal
    (Client.mk "http://h" (oneFailsServer 1 (.other "refused") ⟨200, testBody, none⟩))
    (Client.mk "http://h" (oneFailsServer 1 (.other "refused") ⟨500, [], none⟩))
    testRequest failFastSched World.empty 1 "\"example\"" (by decide)
  ⟨⟨by decide, rfl, rfl⟩, h.1 rfl rfl, (h.2 rfl rfl).1 _ rfl, (h.2 rfl rfl).2 rfl rfl⟩

/-- Claim C6. When the race of an `Execute` call yields a response, `Execute`
returns, and on both exit paths (the `ResultParser` succeeds, or it returns an
error) the one `Close` call of the whole call has been made on the body of that
response. -/
theorem execute_closes_winning_body {V R : Type} (marshal : V → Except GoError String)
    (c : Client) (q : GraphQLRequest V R) (sched : List SchedEvent) (w : World) (enc : String)
    (r : Response)
    (henc : jsonMarshal marshal q.Variables = .ok enc)
    (hrec : (c.performRequest c.Url [("query", [q.Query]), ("variables", [enc])]
      sched w).received = some ⟨some r, none⟩) :
    ∃ out, c.Execute marshal q sched w = some out ∧
      out.world.closed = w.closed ++ [r.Body.handle] ∧
      ((q.ResultParser (ReadAll r.Body).1).2 = none → out.result ≠ none ∧ out.err = none) ∧
      (∀ e, (q.ResultParser (ReadAll r.Body).1).2 = some e →
        out.result = none ∧ out.err = some e) := by
  have henc2 : encodeVariables marshal q.Variables = (enc, none) := by
    simp [encodeVariables, henc]
  have hinv := performRequest_inv c c.Url [("query", [q.Query]), ("variables", [enc])] sched w
  have hclosed : (r.Body.Close (q.parseHttpResponseBody r.Body
      (c.performRequest c.Url [("query", [q.Query]), ("variables", [enc])] sched w).world).2).closed
      = w.closed ++ [r.Body.handle] := by
    rw [parse_world]
    simp [ReadCloser.Close, hinv.closed]
  cases hp : q.ResultParser (ReadAll r.Body).1 with
  | mk v pe =>
    cases pe with
    | none =>
      refine ⟨_, execute_parsed marshal c q sched w enc r v henc2 hrec hp, hclosed, ?_, ?_⟩
      · intro _; exact ⟨by simp, rfl⟩
      · intro e he; cases he
    | some e =>
      refine ⟨_, execute_parse_error marshal c q sched w enc r v e henc2 hrec hp, hclosed, ?_, ?_⟩
      · intro he; cases he
      · intro e2 he; cases he; exact ⟨rfl, rfl⟩

/-- The server answers 200 with a body the parser rejects: the body of the
winning response (goroutine 1) is closed although `Execute` fails. -/
theorem execute_closes_winning_body_witness :
    (jsonMarshal plainStringMarshal testRequest.Variables = .ok "\"example\"" ∧
     ((Client.mk "http://h" (constServer 200 [111, 111, 112, 115])).performRequest "http://h"
        [("query", [testRequest.Query]), ("variables", ["\"example\""])] failFastSched
        World.empty).received = some ⟨some ⟨200, ⟨1, [111, 111, 112, 115], none⟩⟩, none⟩) ∧
    ∃ out, (Client.mk "http://h" (constServer 200 [111, 111, 112, 115])).Execute
        plainStringMarshal testRequest failFastSched World.empty = some out ∧
      out.world.closed = World.empty.closed ++ [1] ∧
      ((testRequest.ResultParser [111, 111, 112, 115]).2 = none →
        out.result ≠ none ∧ out.err = none) ∧
      (∀ e, (testRequest.ResultParser [111, 111, 112, 115]).2 = some e →
        out.result = none ∧ out.err = some e) :=
  ⟨⟨rfl, by decide⟩,
   execute_closes_winning_body plainStringMarshal
    (Client.mk "http://h" (constServer 200 [111, 111, 112, 115])) testRequest failFastSched
    World.empty "\"example\"" ⟨200, ⟨1, [111, 111, 112, 115], none⟩⟩ rfl (by decide)⟩

/-- Claim C7 fails on the code. `parseHttpResponseBody` drops the error of
`ReadAll`: when the race yields a response whose body stream fails with `e`
after `k` bytes, the `ResultParser` is still invoked, on the first `k` bytes of
the body, and `Execute` reports only what the parser says about them. -/
theorem execute_parses_truncated_body {V R : Type} (marshal : V → Except GoError String)
    (c : Client) (q : GraphQLRequest V R) (sched : List SchedEvent) (w : World) (enc : String)
    (r : Response) (k : Nat) (e : GoError)
    (henc : jsonMarshal marshal q.Variables = .ok enc)
    (hrec : (c.performRequest c.Url [("query", [q.Query]), ("variables", [enc])]
      sched w).received = some ⟨some r, none⟩)
    (hread : r.Body.readError = some (k, e)) :
    (ReadAll r.Body).2 = some e ∧
    ∃ out, c.Execute marshal q sched w = some out ∧
      out.world.parserCalls = w.parserCalls ++ [r.Body.content.take k] ∧
      out.err = (q.ResultParser (r.Body.content.take k)).2 ∧
      ((q.ResultParser (r.Body.content.take k)).2 = none →
        out.result.map (fun res => res.Result) =
          some (q.ResultParser (r.Body.content.take k)).1) := by
  have henc2 : encodeVariables marshal q.Variables = (enc, none) := by
    simp [encodeVariables, henc]
  have hinv := performRequest_inv c c.Url [("query", [q.Query]), ("variables", [enc])] sched w
  have hra : ReadAll r.Body = (r.Body.content.take k, some e) := by
    simp [ReadAll, hread]
  have hcalls : (r.Body.Close (q.parseHttpResponseBody r.Body
      (c.performRequest c.Url [("query", [q.Query]), ("variables", [enc])]
        sched w).world).2).parserCalls = w.parserCalls ++ [r.Body.content.take k] := by
    rw [parse_world]
    simp [ReadCloser.Close, hinv.parserCalls, hra]
  refine ⟨by rw [hra], ?_⟩
  cases hp : q.ResultParser (ReadAll r.Body).1 with
  | mk v pe =>
    have hp2 : q.ResultParser (r.Body.content.take k) = (v, pe) := by
      rw [← hp, hra]
    cases pe with
    | none =>
      refine ⟨_, execute_parsed marshal c q sched w enc r v henc2 hrec hp, hcalls, ?_, ?_⟩
      · rw [hp2]
      · intro _; rw [hp2]; rfl
    | some e2 =>
      refine ⟨_, execute_parse_error marshal c q sched w enc r v e2 henc2 hrec hp, hcalls, ?_, ?_⟩
      · rw [hp2]
      · intro h; rw [hp2] at h; cases h

/-- The body `{ "key": "Test Result" }` on a connection that breaks after five
bytes: the parser is invoked on the five bytes `{ "ke` and `Execute` returns
them as the result, with no error. -/
theorem execute_parses_truncated_body_witness :
    (jsonMarshal plainStringMarshal echoRequest.Variables = .ok "\"example\"" ∧
     ((Client.mk "http://h" brokenBodyServer).performRequest "http://h"
        [("query", [echoRequest.Query]), ("variables", ["\"example\""])] failFastSched
        World.empty).received =
       some ⟨some ⟨200, ⟨1, testBody, some (5, .other "unexpected EOF")⟩⟩, none⟩ ∧
     testBody.take 5 ≠ testBody) ∧
    ((ReadAll ⟨1, testBody, some (5, .other "unexpected EOF")⟩).2 =
        some (.other "unexpected EOF") ∧
    ∃ out, (Client.mk "http://h" brokenBodyServer).Execute plainStringMarshal echoRequest
        failFastSched World.empty = some out ∧
      out.world.parserCalls = World.empty.parserCalls ++ [[123, 32, 34, 107, 101]] ∧
      out.err = none ∧
      out.result.map (fun res => res.Result) = some (some [123, 32, 34, 107, 101])) :=
  have h := execute_parses_truncated_body plainStringMarshal
    (Client.mk "http://h" brokenBodyServer) echoRequest failFastSched World.empty "\"example\""
    ⟨200, ⟨1, testBody, some (5, .other "unexpected EOF")⟩⟩ 5 (.other "unexpected EOF")
    rfl (by decide) rfl
  ⟨⟨rfl, by decide, by decide⟩, h.1,
   h.2.elim fun out ho => ⟨out, ho.1, ho.2.1, ho.2.2.1, ho.2.2.2 rfl⟩⟩

/-- Claim C8. When the variables encode to `enc` (the JSON encoding of
`q.Variables`, `null` for nil), the race of `Execute` is `first` on exactly
three requesters, each the requester of the client, and in every schedule the
transport calls of the race are exactly three form POSTs, one by each of the
goroutines 0, 1, 2, each to the URL of the client with the fields `query` (the
single value `q.Query`) and `variables` (the single value `enc`) and no other
field; in every schedule that delivers an outcome `Execute` returns, having
made exactly these three calls. -/
theorem execute_posts_three_identical_forms {V R : Type}
    (marshal : V → Except GoError String) (c : Client) (q : GraphQLRequest V R)
    (sched : List SchedEvent) (w : World) (enc : String)
    (henc : jsonMarshal marshal q.Variables = .ok enc) :
    (q.Variables = none → enc = "null") ∧
    (∃ requesters : List requesterFunc, requesters.length = 3 ∧
      (∀ r ∈ requesters, r = c.requester) ∧
      c.performRequest c.Url [("query", [q.Query]), ("variables", [enc])] sched w =
        first c.Url [("query", [q.Query]), ("variables", [enc])] requesters sched w) ∧
    (∃ gids : List Nat, gids.Perm [0, 1, 2] ∧
      (c.performRequest c.Url [("query", [q.Query]), ("variables", [enc])]
        sched w).world.posts = w.posts ++ gids.map (fun g =>
          (⟨g, c.Url, [("query", [q.Query]), ("variables", [enc])]⟩ : PostCall))) ∧
    (Delivers 3 sched →
      ∃ (out : Outcome V R) (gids : List Nat), c.Execute marshal q sched w = some out ∧
        gids.Perm [0, 1, 2] ∧
        out.world.posts = w.posts ++ gids.map (fun g =>
          (⟨g, c.Url, [("query", [q.Query]), ("variables", [enc])]⟩ : PostCall)) ∧
        out.world.posts.length = w.posts.length + 3) := by
  have henc2 : encodeVariables marshal q.Variables = (enc, none) := by
    simp [encodeVariables, henc]
  have hinv := performRequest_inv c c.Url [("query", [q.Query]), ("variables", [enc])] sched w
  refine ⟨?_, ⟨[c.requester, c.requester, c.requester], rfl, by simp, rfl⟩,
    ⟨[0, 1, 2], List.Perm.refl _, hinv.posts⟩, ?_⟩
  · intro hnil
    rw [hnil] at henc
    simp only [jsonMarshal] at henc
    cases henc
    rfl
  · intro hsched
    obtain ⟨out, hout⟩ := execute_returns marshal c q sched w enc henc2 hsched
    have hw := execute_world marshal c q sched w enc out henc2 hout
    refine ⟨out, [0, 1, 2], hout, List.Perm.refl _, hw.1.trans hinv.posts, ?_⟩
    rw [hw.1, hinv.posts]
    simp

/-- A request without variables on a schedule in which only the call of
goroutine 1 ever returns: three posts all the same, each with `variables` equal
to `null`. -/
theorem execute_posts_three_identical_forms_witness :
    (jsonMarshal plainStringMarshal (none : Option String) = .ok "null" ∧
     Delivers 3 [.recv, .finish 1]) ∧
    ((∃ gids : List Nat, gids.Perm [0, 1, 2] ∧
      ((Client.mk "http://h" (constServer 200 testBody)).performRequest "http://h"
        [("query", ["query"]), ("variables", ["null"])] [.recv, .finish 1]
        World.empty).world.posts = World.empty.posts ++ gids.map (fun g =>
          (⟨g, "http://h", [("query", ["query"]), ("variables", ["null"])]⟩ : PostCall))) ∧
    ∃ (out : Outcome String (List (String × String))) (gids : List Nat),
      (Client.mk "http://h" (constServer 200 testBody)).Execute plainStringMarshal
        (⟨"query", none, jsonMapParser⟩ : GraphQLRequest String (List (String × String)))
        [.recv, .finish 1] World.empty = some out ∧
      gids.Perm [0, 1, 2] ∧
      out.world.posts = World.empty.posts ++ gids.map (fun g =>
        (⟨g, "http://h", [("query", ["query"]), ("variables", ["null"])]⟩ : PostCall)) ∧
      out.world.posts.length = World.empty.posts.length + 3) :=
  have h := execute_posts_three_identical_forms plainStringMarshal
    (Client.mk "http://h" (constServer 200 testBody)) ⟨"query", none, jsonMapParser⟩
    [.recv, .finish 1] World.empty "null" rfl
  have hd : Delivers 3 [.recv, .finish 1] := ⟨by decide, 1, by decide, by decide⟩
  ⟨⟨rfl, hd⟩, h.2.2.1, h.2.2.2 hd⟩

/-- Claim C9 fails on the code. The channel of `first` is unbuffered
(`make(chan httpResponse)`): in every schedule in which the caller receives and
all the launched goroutines finish, all goroutines but the one whose value
the caller took stay parked in their send. -/
theorem first_parks_late_senders (url : String) (values : Values)
    (requester : List requesterFunc) (sched : List SchedEvent) (w : World)
    (hn : 0 < requester.length)
    (hrecv : SchedEvent.recv ∈ sched)
    (hall : ∀ i, i < requester.length → SchedEvent.finish i ∈ sched) :
    (first url values requester sched w).c.cap = 0 ∧
    (first url values requester sched w).blockedSenders.length = requester.length - 1 := by
  have hchan := chanInv_first url values requester sched w
  refine ⟨hchan.cap, ?_⟩
  obtain ⟨j, hj⟩ := firstFinisher_exists requester.length 0 hn sched (hall 0 hn)
  have hjlt := (firstFinisher_spec requester.length j sched hj).1
  have hrec := first_received url values requester sched w j requester[j]
    (List.getElem?_eq_getElem hjlt) hrecv hj
  have hcount := hchan.count
  rw [hrec] at hcount
  have hlen : (first url values requester sched w).finished.length = requester.length :=
    nodup_length_eq requester.length _ (nodup_first url values requester sched w)
      (fun i => by
        rw [first_finished_iff]
        exact ⟨fun h => h.1, fun h => ⟨h, hall i h⟩⟩)
  simp only [RaceState.blockedSenders, List.length_map]
  simp at hcount
  omega

/-- The three requesters of `performRequest` on a schedule in which all three
finish: goroutines 0 and 2 stay parked in their send. -/
theorem first_parks_late_senders_witness :
    (0 < [(Client.mk "http://h" (constServer 200 testBody)).requester,
          (Client.mk "http://h" (constServer 200 testBody)).requester,
          (Client.mk "http://h" (constServer 200 testBody)).requester].length ∧
     SchedEvent.recv ∈ failFastSched ∧
     (∀ i, i < 3 → SchedEvent.finish i ∈ failFastSched) ∧
     (first "http://h" testForm
        [(Client.mk "http://h" (constServer 200 testBody)).requester,
         (Client.mk "http://h" (constServer 200 testBody)).requester,
         (Client.mk "http://h" (constServer 200 testBody)).requester]
        failFastSched World.empty).blockedSenders = [0, 2]) ∧
    ((first "http://h" testForm
        [(Client.mk "http://h" (constServer 200 testBody)).requester,
         (Client.mk "http://h" (constServer 200 testBody)).requester,
         (Client.mk "http://h" (constServer 200 testBody)).requester]
        failFastSched World.empty).c.cap = 0 ∧
     (first "http://h" testForm
        [(Client.mk "http://h" (constServer 200 testBody)).requester,
         (Client.mk "http://h" (constServer 200 testBody)).requester,
         (Client.mk "http://h" (constServer 200 testBody)).requester]
        failFastSched World.empty).blockedSenders.length = 3 - 1) :=
  ⟨⟨by decide, by decide, by decide, by decide⟩,
   first_parks_late_senders "http://h" testForm
    [(Client.mk "http://h" (constServer 200 testBody)).requester,
     (Client.mk "http://h" (constServer 200 testBody)).requester,
     (Client.mk "http://h" (constServer 200 testBody)).requester]
    failFastSched World.empty (by decide) (by decide) (by decide)⟩

/-- Claim C10 fails on the code. The requester of `performRequest` drops a
response whose status is not 200 without closing its body: when the attempt
that finishes first is answered with such a status, `Execute` returns the
protocol error, the transport has handed out the body of that attempt, and no
`Close` call has been made during the whole call. -/
theorem execute_leaves_error_body_open {V R : Type} (marshal : V → Except GoError String)
    (c : Client) (q : GraphQLRequest V R) (sched : List SchedEvent) (w : World) (enc : String)
    (i : Nat) (a : Answer)
    (henc : jsonMarshal marshal q.Variables = .ok enc)
    (hrecv : SchedEvent.recv ∈ sched)
    (hf : firstFinisher 3 sched = some i)
    (ha : c.HttpClient.answer i c.Url [("query", [q.Query]), ("variables", [enc])] = .ok a)
    (hs : a.StatusCode ≠ StatusOK) :
    ∃ out, c.Execute marshal q sched w = some out ∧
      out.err = some (.ProtocolError
        ("Request received status code: " ++ toString a.StatusCode)) ∧
      i ∈ out.world.opened ∧ out.world.closed = w.closed := by
  have henc2 : encodeVariables marshal q.Variables = (enc, none) := by
    simp [encodeVariables, henc]
  have hspec := firstFinisher_spec 3 i sched hf
  have hrec := performRequest_received c c.Url [("query", [q.Query]), ("variables", [enc])]
    sched w i hrecv hf
  rw [requester_of_status c i _ _ w a ha hs] at hrec
  refine ⟨_, execute_race_error marshal c q sched w enc none _ henc2 hrec, rfl, ?_, ?_⟩
  · exact performRequest_opened c c.Url _ sched w i a hspec.1 hspec.2 ha
  · exact (performRequest_inv c c.Url _ sched w).closed

/-- The server of `TestExecuteReturnsErrorIfStatusCodeIsNotOkay` answers 400:
the body handed out to goroutine 1 is never closed. -/
theorem execute_leaves_error_body_open_witness :
    (jsonMarshal plainStringMarshal testRequest.Variables = .ok "\"example\"" ∧
     SchedEvent.recv ∈ failFastSched ∧ firstFinisher 3 failFastSched = some 1 ∧
     (constServer 400 []).answer 1 "http://h"
       [("query", [testRequest.Query]), ("variables", ["\"example\""])] = .ok ⟨400, [], none⟩ ∧
     (400 : Int) ≠ StatusOK) ∧
    ∃ out, (Client.mk "http://h" (constServer 400 [])).Execute plainStringMarshal testRequest
        failFastSched World.empty = some out ∧
      out.err = some (.ProtocolError ("Request received status code: " ++ toString (400 : Int))) ∧
      1 ∈ out.world.opened ∧ out.world.closed = World.empty.closed :=
  ⟨⟨rfl, by decide, rfl, rfl, by decide⟩,
   execute_leaves_error_body_open plainStringMarshal (Client.mk "http://h" (constServer 400 []))
    testRequest failFastSched World.empty "\"example\"" 1 ⟨400, [], none⟩ rfl (by decide) rfl rfl
    (by decide)⟩

end Graphqlgo
